import Mathlib

/-!
The job-completion protocol of `plugin.go` (drone-sonar-plugin)

A shallow embedding of `src/plugin.go`.  Everything the Go program obtains from
outside (the file system, the two child processes, the HTTP server, the timers
and the choice made by `select`) is an explicit field of `World` or an explicit
argument, so every function below is a pure, executable function of its inputs.

`logrus ... Fatal` ends the process with exit status 1; a nil pointer
dereference ends it with a panic.  Both are results of type `Run`.
-/

namespace SonarPlugin

/-! ## Data model (`plugin.go`, lines 23-67) -/

/-- Plugin defines the sonar-scanner plugin parameters. -/
structure Plugin where
  Host : String
  Token : String
  Key : String
  Name : String
  Version : String
  Sources : String
  Inclusions : String
  Exclusions : String
  Language : String
  Profile : String
  Encoding : String
  Remote : String
  Branch : String
  Quality : String
  deriving DecidableEq, Repr

/-- SonarReport is the representation of `.scannerwork/report-task.txt`. -/
structure SonarReport where
  ProjectKey : String
  ServerURL : String
  DashboardURL : String
  CeTaskID : String
  CeTaskURL : String
  deriving DecidableEq, Repr

/-- The anonymous struct `Task` inside `TaskResponse`
(the Go field `Type` is spelled `Typ`, `Type` being reserved). -/
structure Task where
  ID : String
  Typ : String
  ComponentID : String
  ComponentKey : String
  ComponentName : String
  AnalysisID : String
  Status : String
  deriving DecidableEq, Repr

/-- TaskResponse gives Compute Engine task details. -/
structure TaskResponse where
  Task : Task
  deriving DecidableEq, Repr

/-- The anonymous struct `ProjectStatus` inside `ProjectStatusResponse`. -/
structure ProjectStatus where
  Status : String
  deriving DecidableEq, Repr

/-- ProjectStatusResponse: the quality gate status of a project. -/
structure ProjectStatusResponse where
  ProjectStatus : ProjectStatus
  deriving DecidableEq, Repr

/-- The Go zero value `SonarReport{}`. -/
def SonarReport.zero : SonarReport := ⟨"", "", "", "", ""⟩

/-- The Go zero value `TaskResponse{}`. -/
def TaskResponse.zero : TaskResponse := ⟨⟨"", "", "", "", "", "", ""⟩⟩

/-- The Go zero value `ProjectStatusResponse{}`. -/
def ProjectStatusResponse.zero : ProjectStatusResponse := ⟨⟨""⟩⟩

/-! ## Results of a call -/

/-- How a call of one of the program's functions ends. -/
inductive Run (α : Type) where
  /-- the function returns `a` to its caller -/
  | ret (a : α)
  /-- `logrus ... Fatal(msg)`: the process exits with status 1 -/
  | fatal (msg : String)
  /-- a nil pointer is dereferenced: the process panics -/
  | panicked
  /-- the supplied sequence of `select` outcomes is used up while the loop
  is still waiting (only an artefact of a finite oracle) -/
  | blocked
  deriving DecidableEq, Repr

/-- The process was terminated abnormally (non-zero exit status). -/
def Run.aborted {α : Type} : Run α → Bool
  | .fatal _ => true
  | .panicked => true
  | _ => false

/-! ## JSON bodies and `encoding/json` decoding into the two response structs

`encoding/json` is Go's standard library, not code of the repository.  What
the program relies on is written down here for structs of string fields: the
syntax of the whole text is checked before anything is stored; an object
member is stored into the field that has its key as name (else into the field
whose name matches the key up to case), other members are skipped; a type
error is saved and decoding goes on; the error is returned at the end. -/

/-- A syntactically valid JSON text, as a value tree.  String values and
object keys are the decoded strings. -/
inductive Json where
  | null
  | bool (b : Bool)
  | num (literal : String)
  | str (s : String)
  | arr (items : List Json)
  | obj (members : List (String × Json))

/-- The bytes of an HTTP response body as `json.Unmarshal` sees them: they
either fail its syntax check (`malformed`, which includes the empty body) or
are a JSON text. -/
inductive Body where
  | malformed
  | json (v : Json)

/-- What `netClient.Do` gives back: an error (no response), or a response
whose body is then read by `ioutil.ReadAll`.  The HTTP status code is never
inspected by the program and is not represented. -/
inductive HttpResult where
  | transportError (err : String)
  | response (body : Body)

/-- Simple case folding of one rune, as far as it can reach an ASCII letter:
ASCII letters fold to upper case, U+017F (long s) folds to `S` and U+212A
(Kelvin sign) to `K`. -/
def foldRune (c : Char) : Char :=
  if c.toNat = 0x17F then 'S'
  else if c.toNat = 0x212A then 'K'
  else c.toUpper

/-- Case-insensitive match of a JSON object key against an (ASCII) field name,
the fallback `encoding/json` uses when no field has exactly the key as name. -/
def equalFold (name key : String) : Bool :=
  name.toList.map foldRune == key.toList.map foldRune

/-- The field a JSON object key is decoded into: the field whose name is the
key, else the first field whose name matches it case-insensitively. -/
def fieldFor (names : List String) (key : String) : Option String :=
  match names.find? (fun n => n == key) with
  | some n => some n
  | none => names.find? (fun n => equalFold n key)

/-- Storing a JSON value into a Go `string` field holding `cur`: a JSON string
is stored as it is, `null` leaves the field alone, every other value leaves the
field alone and records an `UnmarshalTypeError` (second component `true`). -/
def storeString (cur : String) : Json → String × Bool
  | .str s => (s, false)
  | .null => (cur, false)
  | _ => (cur, true)

/-- The JSON names of the fields of `Task`, in declaration order. -/
def taskFields : List String :=
  ["id", "type", "componentId", "componentKey", "componentName", "analysisId", "status"]

/-- Reads the field of `Task` with the given JSON name. -/
def Task.get (t : Task) (name : String) : String :=
  if name = "id" then t.ID
  else if name = "type" then t.Typ
  else if name = "componentId" then t.ComponentID
  else if name = "componentKey" then t.ComponentKey
  else if name = "componentName" then t.ComponentName
  else if name = "analysisId" then t.AnalysisID
  else if name = "status" then t.Status
  else ""

/-- Writes the field of `Task` with the given JSON name. -/
def Task.set (t : Task) (name : String) (s : String) : Task :=
  if name = "id" then { t with ID := s }
  else if name = "type" then { t with Typ := s }
  else if name = "componentId" then { t with ComponentID := s }
  else if name = "componentKey" then { t with ComponentKey := s }
  else if name = "componentName" then { t with ComponentName := s }
  else if name = "analysisId" then { t with AnalysisID := s }
  else if name = "status" then { t with Status := s }
  else t

/-- Decoding one member of the JSON object for `task`; the Boolean is the
saved-error flag of the decoder (decoding goes on after a type error). -/
def decodeTaskMember (st : Task × Bool) (kv : String × Json) : Task × Bool :=
  match fieldFor taskFields kv.1 with
  | none => st
  | some f =>
    let r := storeString (st.1.get f) kv.2
    (st.1.set f r.1, st.2 || r.2)

/-- Decoding a JSON value into the struct `Task`. -/
def decodeTask (st : Task × Bool) : Json → Task × Bool
  | .obj members => members.foldl decodeTaskMember st
  | .null => st
  | _ => (st.1, true)

/-- Decoding one member of the top-level object of a task response. -/
def decodeTaskResponseMember (st : TaskResponse × Bool) (kv : String × Json) :
    TaskResponse × Bool :=
  match fieldFor ["task"] kv.1 with
  | none => st
  | some _ =>
    let r := decodeTask (st.1.Task, st.2) kv.2
    (⟨r.1⟩, r.2)

/-- The call `json.Unmarshal(buf, &task)` for a `TaskResponse` holding `cur`:
the struct after the call and whether an error is returned.  A body that fails
the syntax check leaves the struct untouched. -/
def unmarshalTaskResponse (cur : TaskResponse) : Body → TaskResponse × Bool
  | .malformed => (cur, true)
  | .json (.obj members) => members.foldl decodeTaskResponseMember (cur, false)
  | .json .null => (cur, false)
  | .json _ => (cur, true)

/-- Decoding one member of the JSON object for `projectStatus`. -/
def decodeProjectStatusMember (st : ProjectStatus × Bool) (kv : String × Json) :
    ProjectStatus × Bool :=
  match fieldFor ["status"] kv.1 with
  | none => st
  | some _ =>
    let r := storeString st.1.Status kv.2
    (⟨r.1⟩, st.2 || r.2)

/-- Decoding a JSON value into the struct `ProjectStatus`. -/
def decodeProjectStatus (st : ProjectStatus × Bool) : Json → ProjectStatus × Bool
  | .obj members => members.foldl decodeProjectStatusMember st
  | .null => st
  | _ => (st.1, true)

/-- Decoding one member of the top-level object of a gate response. -/
def decodeProjectStatusResponseMember (st : ProjectStatusResponse × Bool)
    (kv : String × Json) : ProjectStatusResponse × Bool :=
  match fieldFor ["projectStatus"] kv.1 with
  | none => st
  | some _ =>
    let r := decodeProjectStatus (st.1.ProjectStatus, st.2) kv.2
    (⟨r.1⟩, r.2)

/-- The call `json.Unmarshal(buf, &project)` for a `ProjectStatusResponse`. -/
def unmarshalProjectStatusResponse (cur : ProjectStatusResponse) :
    Body → ProjectStatusResponse × Bool
  | .malformed => (cur, true)
  | .json (.obj members) => members.foldl decodeProjectStatusResponseMember (cur, false)
  | .json .null => (cur, false)
  | .json _ => (cur, true)

/-! ## HTTP requests (`net/http`, `net/url`)

The request as the program builds it, and the escaping of query values by
`url.Values.Encode`. -/

/-- The part of `*http.Request` the program sets.  `URL` is the URL of the
request as it is written out again after `url.Parse`, which need not be the
string that was handed to `http.NewRequest`. -/
structure Request where
  Method : String
  URL : String
  Header : List (String × String)
  deriving DecidableEq, Repr

/-- The call `req.Header.Add(key, value)`. -/
def Request.headerAdd (req : Request) (key value : String) : Request :=
  { req with Header := req.Header ++ [(key, value)] }

/-- The call `req.Header.Get(key)`: the first value stored under the key. -/
def Request.headerGet (req : Request) (key : String) : Option String :=
  req.Header.lookup key

/-- The UTF-8 encoding of a rune, as a list of byte values. -/
def utf8Bytes (c : Char) : List Nat :=
  let n := c.toNat
  if n < 0x80 then [n]
  else if n < 0x800 then [0xC0 + n / 64, 0x80 + n % 64]
  else if n < 0x10000 then [0xE0 + n / 4096, 0x80 + n / 64 % 64, 0x80 + n % 64]
  else [0xF0 + n / 262144, 0x80 + n / 4096 % 64, 0x80 + n / 64 % 64, 0x80 + n % 64]

/-- The function `shouldEscape(c, encodeQueryComponent)` of `net/url`: every byte
is escaped except ASCII letters, digits and `-`, `_`, `.`, `~`. -/
def shouldEscape (b : Nat) : Bool :=
  !((0x61 ≤ b && b ≤ 0x7A) || (0x41 ≤ b && b ≤ 0x5A) || (0x30 ≤ b && b ≤ 0x39)
    || b == 0x2D || b == 0x5F || b == 0x2E || b == 0x7E)

/-- The digit of `upperhex = "0123456789ABCDEF"` at position `n`. -/
def upperhex (n : Nat) : Char :=
  "0123456789ABCDEF".toList.getD n '0'

/-- Escaping of one byte by `url.QueryEscape`: a space becomes `+`, a byte that
must be escaped becomes `%XX`, every other byte stays. -/
def escapeByte (b : Nat) : List Char :=
  if b = 0x20 then ['+']
  else if shouldEscape b then ['%', upperhex (b / 16), upperhex (b % 16)]
  else [Char.ofNat b]

/-- The function `url.QueryEscape`. -/
def QueryEscape (s : String) : String :=
  String.mk (s.toList.flatMap (fun c => (utf8Bytes c).flatMap escapeByte))

/-- The method `url.Values.Encode` on the entries of the map listed in key
order: `key=value` pairs, both escaped, joined by `&`. -/
def valuesEncode (v : List (String × List String)) : String :=
  "&".intercalate
    (v.flatMap (fun kv => kv.2.map (fun x => QueryEscape kv.1 ++ "=" ++ QueryEscape x)))

/-! ## The manifest: `sed` and `toml.Unmarshal`

`/bin/sed` and `github.com/pelletier/go-toml` are not code of the repository.
The two substitutions the program passes to `sed` are applied line by line.
Of TOML only documents made of `key="value"` lines are read here, which is what
`sed` makes of the scanner's `key=value` manifest; what `toml.Unmarshal` does
with any other document is a field of `World`. -/

/-- The double quote character. -/
def dquote : Char := Char.ofNat 34

/-- The backslash character. -/
def backslash : Char := Char.ofNat 92

/-- The script `sed -e s/=/="/ -e s/$/"/` on one line: a double quote is put
after the first `=` (if there is one) and another at the end of the line. -/
def sedLine (line : String) : String :=
  let cs := line.toList
  let cs1 :=
    match cs.dropWhile (fun c => c != '=') with
    | _ :: rest => cs.takeWhile (fun c => c != '=') ++ ['=', dquote] ++ rest
    | [] => cs
  String.mk (cs1 ++ [dquote])

/-- A character of a TOML bare key. -/
def isBareKeyChar (c : Char) : Bool :=
  c.isAlphanum || c == '_' || c == '-'

/-- A character that stands for itself inside a TOML basic string. -/
def isPlainStringChar (c : Char) : Bool :=
  c != dquote && c != backslash && 0x20 ≤ c.toNat && c.toNat != 0x7F

/-- One line of the form `key="value"`, with a bare key and a value free of
quotes, backslashes and control characters, read as a key/value pair; `none`
for every other line. -/
def parseKeyValue (line : String) : Option (String × String) :=
  let cs := line.toList
  let key := cs.takeWhile (fun c => c != '=')
  match cs.dropWhile (fun c => c != '=') with
  | _ :: q :: more =>
    match more.reverse with
    | q2 :: rvalue =>
      if q == dquote && q2 == dquote && !key.isEmpty && key.all isBareKeyChar
          && rvalue.all isPlainStringChar then
        some (String.mk key, String.mk rvalue.reverse)
      else none
    | [] => none
  | _ => none

/-- The table of a TOML document that consists only of `key="value"` lines with
pairwise different keys; `none` for every other document. -/
def tomlTable (lines : List String) : Option (List (String × String)) :=
  match lines.mapM parseKeyValue with
  | some table => if (table.map Prod.fst).Nodup then some table else none
  | none => none

/-- The function `strings.ToLower` on an ASCII string. -/
def toLower (s : String) : String :=
  String.mk (s.toList.map Char.toLower)

/-- The function `strings.ToTitle` on an ASCII string (every letter in upper
case). -/
def toTitle (s : String) : String :=
  String.mk (s.toList.map Char.toUpper)

/-- The value `toml.Unmarshal` stores into the string field tagged `name`: the
decoder tries the keys `name`, `strings.ToLower(name)` and
`strings.ToTitle(name)` in this order and stores the first one the table has;
a field none of whose keys is present keeps its zero value. -/
def tomlField (table : List (String × String)) (name : String) : String :=
  match [name, toLower name, toTitle name].findSome? (fun k => table.lookup k) with
  | some v => v
  | none => ""

/-- Filling a `SonarReport` from a table, by the `toml` tags of its fields. -/
def tomlBind (table : List (String × String)) : SonarReport :=
  { ProjectKey := tomlField table "projectKey"
    ServerURL := tomlField table "serverUrl"
    DashboardURL := tomlField table "dashboardUrl"
    CeTaskID := tomlField table "ceTaskId"
    CeTaskURL := tomlField table "ceTaskUrl" }

/-! ## The environment -/

/-- The arm of the `select` statement in `waitForSonarJob` that is taken. -/
inductive Arm where
  | timeout
  | tick
  deriving DecidableEq, Repr

/-- Everything the program obtains from outside. -/
structure World where
  /-- `template.ParseFiles` succeeds -/
  templateParses : Bool
  /-- `os.Create` of the properties file succeeds -/
  fileCreates : Bool
  /-- `tmpl.ExecuteTemplate` succeeds on the plugin parameters -/
  templateExecutes : Plugin → Bool
  /-- `CombinedOutput` of `/opt/sonar-scanner/bin/sonar-scanner` -/
  scanner : Except String String
  /-- the lines of `.scannerwork/report-task.txt`, or the error of running
  `/bin/sed` on it -/
  reportTask : Except String (List String)
  /-- `toml.Unmarshal` on a document that is not made of plain `key="value"`
  lines with different keys (the library accepts far more than that) -/
  tomlOther : List String → Except String SonarReport
  /-- `os.Getenv("TOKEN")` -/
  TOKEN : String
  /-- `url.Parse` inside `http.NewRequest`: `none` if the string is rejected,
  else the URL as the request carries it (read and written out again by
  `net/url`: the scheme in lower case, a space in the path as `%20`, the text
  after a `#` kept apart as fragment and not sent, and so on) -/
  urlParse : String → Option String
  /-- `netClient.Do` on the `i`-th status request of the poll loop -/
  taskEndpoint : Nat → Request → HttpResult
  /-- `netClient.Do` on the quality gate request -/
  gateEndpoint : Request → HttpResult
  /-- the arms the `select` of the poll loop takes, in order -/
  arms : List Arm

/-- The call `http.NewRequest(method, url, nil)`: the string is parsed and the
request carries the parsed URL; `none` is the nil request returned together
with an error. -/
def NewRequest (w : World) (method url : String) : Option Request :=
  (w.urlParse url).map (fun parsed => ⟨method, parsed, []⟩)

/-- The call `toml.Unmarshal(output, &report)` on the output of `sed`. -/
def tomlUnmarshal (w : World) (lines : List String) : Except String SonarReport :=
  match tomlTable lines with
  | some table => .ok (tomlBind table)
  | none => w.tomlOther lines

/-! ## The program (`plugin.go`, lines 81-231) -/

/-- Method `buildScannerProperties`: each of its three steps ends the process
on failure, otherwise `nil` is returned.  (The rewritten `p.Key` only feeds
the template.) -/
def buildScannerProperties (w : World) (p : Plugin) : Run (Option String) :=
  let p := { p with Key := p.Key.replace "/" ":" }
  if !w.templateParses then .fatal "Template parsing failed"
  else if !w.fileCreates then .fatal "sonar-properties file creation failed"
  else if !w.templateExecutes p then .fatal "Template execution failed"
  else .ret none

/-- What a run has achieved so far (a record kept beside the result; the
program itself prints the scanner output and logs the job URL at the first
two points). -/
inductive Event where
  /-- the scanner process exited successfully with this output -/
  | scannerSucceeded (output : String)
  /-- the manifest was decoded into this report -/
  | reportParsed (report : SonarReport)
  /-- `waitForSonarJob` returned this task and no error -/
  | jobCompleted (job : TaskResponse)
  /-- `getStatus` returned this verdict -/
  | verdict (status : String)
  deriving DecidableEq, Repr

/-- Function `staticScan`: runs the scanner, quotes the manifest with `sed` and
decodes it.  Beside the result, the scanner's success is recorded. -/
def staticScan (w : World) : Run SonarReport × List Event :=
  match w.scanner with
  | .error _ => (.fatal "Run command failed", [])
  | .ok output =>
    match w.reportTask with
    | .error _ => (.fatal "Run command failed", [.scannerSucceeded output])
    | .ok lines =>
      match tomlUnmarshal w (lines.map sedLine) with
      | .error _ => (.fatal "Toml Unmarshal failed", [.scannerSucceeded output])
      | .ok report => (.ret report, [.scannerSucceeded output])

/-- The URL `getStatus` passes to `http.NewRequest`. -/
def getStatusURL (task : TaskResponse) (report : SonarReport) : String :=
  report.ServerURL ++ "/api/qualitygates/project_status?"
    ++ valuesEncode [("analysisId", [task.Task.AnalysisID])]

/-- The request `getStatus` hands to `netClient.Do`; `none` if
`http.NewRequest` fails. -/
def getStatusRequest (w : World) (task : TaskResponse) (report : SonarReport) :
    Option Request :=
  (NewRequest w "GET" (getStatusURL task report)).map
    (fun r => r.headerAdd "Authorization" ("Basic " ++ w.TOKEN))

/-- Function `getStatus`. -/
def getStatus (w : World) (task : TaskResponse) (report : SonarReport) : Run String :=
  match getStatusRequest w task report with
  | none => .panicked
  | some projectRequest =>
    match w.gateEndpoint projectRequest with
    | .transportError _ => .fatal "Failed get status"
    | .response buf =>
      let r := unmarshalProjectStatusResponse ProjectStatusResponse.zero buf
      if r.2 then .fatal "Failed" else .ret r.1.ProjectStatus.Status

/-- The request `getSonarJobStatus` hands to `netClient.Do`; `none` if
`http.NewRequest` fails. -/
def getSonarJobStatusRequest (w : World) (report : SonarReport) : Option Request :=
  (NewRequest w "GET" report.CeTaskURL).map
    (fun r => r.headerAdd "Authorization" ("Basic " ++ w.TOKEN))

/-- Function `getSonarJobStatus`, for the `i`-th status request of the loop.
The error of `json.Unmarshal` is dropped. -/
def getSonarJobStatus (w : World) (i : Nat) (report : SonarReport) : Run TaskResponse :=
  match getSonarJobStatusRequest w report with
  | none => .panicked
  | some taskRequest =>
    match w.taskEndpoint i taskRequest with
    | .transportError _ => .fatal "Failed get sonar job status"
    | .response buf => .ret (unmarshalTaskResponse TaskResponse.zero buf).1

deriving instance DecidableEq for Except

/-- The result of `waitForSonarJob` together with the number of status
requests handed to `netClient.Do` so far. -/
structure Poll where
  result : Run (Except String TaskResponse)
  requests : Nat
  deriving DecidableEq, Repr

/-- Function `waitForSonarJob`, the `select` being resolved by the list of arms
it takes; `i` status requests have been made before.  `(job, nil)` is
`.ret (.ok job)` and `(nil, errors.New("timed out"))` is
`.ret (.error "timed out")`. -/
def waitForSonarJobFrom (w : World) (report : SonarReport) : List Arm → Nat → Poll
  | [], i => ⟨.blocked, i⟩
  | .timeout :: _, i => ⟨.ret (.error "timed out"), i⟩
  | .tick :: arms, i =>
    match getSonarJobStatus w i report with
    | .ret job =>
      if job.Task.Status = "SUCCESS" then ⟨.ret (.ok job), i + 1⟩
      else waitForSonarJobFrom w report arms (i + 1)
    | .fatal msg => ⟨.fatal msg, i + 1⟩
    | .panicked => ⟨.panicked, i⟩
    | .blocked => ⟨.blocked, i⟩

/-- Function `waitForSonarJob` on the arms `select` takes. -/
def waitForSonarJob (w : World) (report : SonarReport) (arms : List Arm) : Poll :=
  waitForSonarJobFrom w report arms 0

/-- Method `Plugin.Exec`: `.ret none` is the return of `nil` (PASS), `.ret (some
err)` the return of an error. -/
def Exec (w : World) (p : Plugin) : Run (Option String) × List Event :=
  match buildScannerProperties w p with
  | .fatal msg => (.fatal msg, [])
  | .panicked => (.panicked, [])
  | .blocked => (.blocked, [])
  | .ret (some err) => (.ret (some err), [])
  | .ret none =>
    match staticScan w with
    | (.fatal msg, log) => (.fatal msg, log)
    | (.panicked, log) => (.panicked, log)
    | (.blocked, log) => (.blocked, log)
    | (.ret report, log) =>
      let log := log ++ [.reportParsed report]
      match (waitForSonarJob w report w.arms).result with
      | .fatal msg => (.fatal msg, log)
      | .panicked => (.panicked, log)
      | .blocked => (.blocked, log)
      | .ret (.error _) => (.fatal "Unable to get Job state", log)
      | .ret (.ok task) =>
        let log := log ++ [.jobCompleted task]
        match getStatus w task report with
        | .fatal msg => (.fatal msg, log)
        | .panicked => (.panicked, log)
        | .blocked => (.blocked, log)
        | .ret status =>
          let log := log ++ [.verdict status]
          if status != p.Quality then (.fatal "QualityGate status failed", log)
          else (.ret none, log)

/-! ## The poll loop with its two timers

Times are in milliseconds since the call of `waitForSonarJob`.  Statements
other than the status request take no time.  `time.After(300 * time.Second)`
makes its channel ready at 300000 and it stays ready.  `time.Tick(500 *
time.Millisecond)` fires at 500, 1000, 1500, ... into a channel that holds one
tick: a tick that fires while one is still held is dropped.  A `select` that
finds exactly one channel ready takes it; one that finds none ready waits for
the next firing; one that finds both ready takes either (the Go specification:
a single one that can proceed is chosen via a uniform pseudo-random
selection), which is the `choice` of the schedule. -/

/-- The duration `300 * time.Second` of the timeout, in milliseconds. -/
def timeoutAfter : Nat := 300 * 1000

/-- The period `500 * time.Millisecond` of the ticker, in milliseconds. -/
def tickEvery : Nat := 500

/-- The timing of a run. -/
structure Schedule where
  /-- the time the `i`-th call of `getSonarJobStatus` takes -/
  requestTime : Nat → Nat
  /-- the arm the `n`-th execution of `select` takes if both channels are ready -/
  choice : Nat → Arm

/-- The `n`-th execution of `select`, entered at time `now` with or without a
tick held by the ticker channel: the arm taken and the time at which it is. -/
def selectArm (s : Schedule) (n now : Nat) (held : Bool) : Arm × Nat :=
  if timeoutAfter ≤ now then
    if held then (s.choice n, now) else (.timeout, now)
  else if held then (.tick, now)
  else
    let next := (now / tickEvery + 1) * tickEvery
    if next < timeoutAfter then (.tick, next)
    else if timeoutAfter < next then (.timeout, timeoutAfter)
    else (s.choice n, timeoutAfter)

/-- A finished or interrupted run of the timed loop. -/
structure TimedPoll where
  /-- what `waitForSonarJob` returned, or how the process ended -/
  result : Run (Except String TaskResponse)
  /-- the number of status requests handed to `netClient.Do` -/
  requests : Nat
  /-- the time at which the run ended -/
  elapsed : Nat
  /-- the arms `select` took, in order -/
  arms : List Arm
  deriving DecidableEq, Repr

/-- Puts an arm in front of the arms of a run. -/
def TimedPoll.after (a : Arm) (r : TimedPoll) : TimedPoll :=
  { r with arms := a :: r.arms }

/-- Function `waitForSonarJob` with its timers, for at most `fuel` iterations
of the loop, from the state in which `i` iterations (and status requests) were
made, the time is `now` and the ticker channel holds a tick or not.  A run
that is cut off by `fuel` has the result `blocked`. -/
def waitForSonarJobAt (w : World) (s : Schedule) (report : SonarReport) :
    Nat → Nat → Nat → Bool → TimedPoll
  | 0, i, now, _ => ⟨.blocked, i, now, []⟩
  | fuel + 1, i, now, held =>
    match selectArm s i now held with
    | (.timeout, t) => ⟨.ret (.error "timed out"), i, t, [.timeout]⟩
    | (.tick, t) =>
      match getSonarJobStatus w i report with
      | .ret job =>
        let done := t + s.requestTime i
        if job.Task.Status = "SUCCESS" then ⟨.ret (.ok job), i + 1, done, [.tick]⟩
        else
          (waitForSonarJobAt w s report fuel (i + 1) done
            (decide (t / tickEvery < done / tickEvery))).after .tick
      | .fatal msg => ⟨.fatal msg, i + 1, t + s.requestTime i, [.tick]⟩
      | .panicked => ⟨.panicked, i, t, [.tick]⟩
      | .blocked => ⟨.blocked, i, t, [.tick]⟩

/-- Function `waitForSonarJob` with its timers, from its call. -/
def waitForSonarJobTimed (w : World) (s : Schedule) (report : SonarReport)
    (fuel : Nat) : TimedPoll :=
  waitForSonarJobAt w s report fuel 0 0 false

/-- The invariant of the timed loop: the iterations made plus the tick held
do not exceed the number of firings of the ticker so far. -/
def ticksAccounted (i now : Nat) (held : Bool) : Prop :=
  i + (if held then 1 else 0) ≤ now / tickEvery

/-- The time the `k` status requests from number `i` on take together. -/
def requestTimeFrom (s : Schedule) (i : Nat) : Nat → Nat
  | 0 => 0
  | k + 1 => s.requestTime i + requestTimeFrom s (i + 1) k

instance (i now : Nat) (held : Bool) : Decidable (ticksAccounted i now held) := by
  unfold ticksAccounted
  exact inferInstance

/-! ## Sample environments -/

/-- A task response body with the given analysis id and status. -/
def taskBody (analysisId status : String) : Body :=
  .json (.obj [("task", .obj [("analysisId", .str analysisId), ("status", .str status)])])

/-- A gate response body with the given status. -/
def gateBody (status : String) : Body :=
  .json (.obj [("projectStatus", .obj [("status", .str status)])])

/-- A healthy environment: the manifest names the server and the task, the
task is `SUCCESS` from the `k`-th status request on (`PENDING` before) and
the gate answers with the given verdict; `select` takes `ticks` ticks and
then the timeout. -/
def sampleWorld (k : Nat) (gate : String) (ticks : Nat) : World where
  templateParses := true
  fileCreates := true
  templateExecutes := fun _ => true
  scanner := .ok "EXECUTION SUCCESS"
  reportTask := .ok ["serverUrl=https://s.example", "ceTaskUrl=https://s.example/task/1"]
  tomlOther := fun _ => .error "toml"
  TOKEN := "dG9rZW46"
  urlParse := fun url => some url
  taskEndpoint := fun i _ =>
    .response (if k ≤ i + 1 then taskBody "A1" "SUCCESS" else taskBody "" "PENDING")
  gateEndpoint := fun _ => .response (gateBody gate)
  arms := List.replicate ticks .tick ++ [.timeout]

/-- The healthy environment, except that every status response has a body
that is not JSON. -/
def malformedWorld (ticks : Nat) : World :=
  { sampleWorld 1 "OK" ticks with taskEndpoint := fun _ _ => .response .malformed }

/-- The healthy environment with `SUCCESS` from the third status request on,
except that the second status request fails in transport. -/
def flakyWorld (ticks : Nat) : World :=
  { sampleWorld 3 "OK" ticks with
    taskEndpoint := fun i _ =>
      if i = 1 then .transportError "connection reset"
      else .response (if 3 ≤ i + 1 then taskBody "A1" "SUCCESS" else taskBody "" "PENDING") }

/-- The healthy environment, except that the manifest names neither the
server nor the task URL. -/
def incompleteWorld : World :=
  { sampleWorld 1 "OK" 3 with reportTask := .ok ["projectKey=demo", "ceTaskId=AX1"] }

/-- The healthy environment, except that the task has failed: every status
response carries the status `FAILED`. -/
def failedWorld : World :=
  { sampleWorld 1 "OK" 3 with taskEndpoint := fun _ _ => .response (taskBody "" "FAILED") }

/-- The schedule in which a status request takes no time and `select` takes
the timeout arm when both channels are ready. -/
def promptSchedule : Schedule := ⟨fun _ => 0, fun _ => .timeout⟩

/-- The schedule in which every status request takes nine seconds and `select`
takes the given arm when both channels are ready. -/
def slowSchedule (a : Arm) : Schedule := ⟨fun _ => 9000, fun _ => a⟩

/-- The healthy environment, except that the gate answers with the object
whose `projectStatus` has the member `status` with value `OK` and, after it,
the member `STATUS` with value `ERROR`. -/
def twoStatusWorld : World :=
  { sampleWorld 1 "OK" 3 with
    gateEndpoint := fun _ => .response (.json (.obj
      [("projectStatus", .obj [("status", .str "OK"), ("STATUS", .str "ERROR")])])) }

/-- The healthy environment, except that the gate answers with the object
that has, after `projectStatus` with `status` equal to `OK`, the member
`projectstatus` with an empty array as value. -/
def arrayMemberWorld : World :=
  { sampleWorld 1 "OK" 3 with
    gateEndpoint := fun _ => .response (.json (.obj
      [("projectStatus", .obj [("status", .str "OK")]), ("projectstatus", .arr [])])) }

/-- The request for the task status in the sample environments. -/
def sampleTaskRequest : Request :=
  ⟨"GET", "https://s.example/task/1", [("Authorization", "Basic dG9rZW46")]⟩

/-- The request for the gate status in the healthy environment. -/
def sampleGateRequest : Request :=
  ⟨"GET", "https://s.example/api/qualitygates/project_status?analysisId=A1",
    [("Authorization", "Basic dG9rZW46")]⟩

/-- The plugin parameters with the given expected gate status. -/
def samplePlugin (quality : String) : Plugin :=
  { Host := "https://s.example", Token := "", Key := "org/app", Name := "app",
    Version := "1", Sources := ".", Inclusions := "", Exclusions := "",
    Language := "", Profile := "", Encoding := "UTF-8", Remote := "", Branch := "",
    Quality := quality }

/-- The report of the sample manifest. -/
def sampleReport : SonarReport :=
  ⟨"", "https://s.example", "", "", "https://s.example/task/1"⟩

/-! ## The poll loop, `select` resolved by a list of arms -/

/-- A tick whose status request is answered by a task that is not `SUCCESS`
only advances the loop. -/
theorem waitForSonarJobFrom_tick_pending (w : World) (report : SonarReport)
    (arms : List Arm) (i : Nat) (job : TaskResponse)
    (hjob : getSonarJobStatus w i report = .ret job)
    (hs : job.Task.Status ≠ "SUCCESS") :
    waitForSonarJobFrom w report (.tick :: arms) i
      = waitForSonarJobFrom w report arms (i + 1) := by
  simp [waitForSonarJobFrom, hjob, hs]

/-- A run of `n` ticks whose requests are all answered by tasks that are not
`SUCCESS` leaves the loop running, `n` requests later. -/
theorem waitForSonarJobFrom_ticks_pending (w : World) (report : SonarReport)
    (n : Nat) (rest : List Arm) (i : Nat)
    (h : ∀ j, i ≤ j → j < i + n →
      ∃ job, getSonarJobStatus w j report = .ret job ∧ job.Task.Status ≠ "SUCCESS") :
    waitForSonarJobFrom w report (List.replicate n .tick ++ rest) i
      = waitForSonarJobFrom w report rest (i + n) := by
  induction n generalizing i with
  | zero => simp
  | succ n ih =>
    obtain ⟨job, hjob, hs⟩ := h i (Nat.le_refl i) (by omega)
    rw [List.replicate_succ, List.cons_append,
      waitForSonarJobFrom_tick_pending w report _ i job hjob hs,
      ih (i + 1) (fun j h1 h2 => h j (by omega) (by omega))]
    congr 1
    omega

/-- A list of arms that starts with `n` ticks. -/
theorem arms_eq_of_take_eq (arms : List Arm) (n : Nat)
    (h : arms.take n = List.replicate n Arm.tick) :
    arms = List.replicate n Arm.tick ++ arms.drop n := by
  conv_lhs => rw [← List.take_append_drop n arms]
  rw [h]

/-- C2: for every list of arms taken by `select` and every status source, if
the first `k + 1` arms are ticks, the first `k` status requests are answered by
tasks that are not `SUCCESS` and request number `k` (the `k + 1`-st) is
answered by a task `job` with status `SUCCESS`, then `waitForSonarJob` returns
exactly `job` with a nil error, and it has issued `k + 1` status requests, none
after the first `SUCCESS` response. -/
theorem waitForSonarJob_first_success (w : World) (report : SonarReport)
    (arms : List Arm) (k : Nat) (job : TaskResponse)
    (harms : arms.take (k + 1) = List.replicate (k + 1) Arm.tick)
    (hbefore : ∀ j, j < k →
      ∃ jb, getSonarJobStatus w j report = .ret jb ∧ jb.Task.Status ≠ "SUCCESS")
    (hjob : getSonarJobStatus w k report = .ret job)
    (hs : job.Task.Status = "SUCCESS") :
    waitForSonarJob w report arms = ⟨.ret (.ok job), k + 1⟩ := by
  unfold waitForSonarJob
  rw [arms_eq_of_take_eq arms (k + 1) harms, List.replicate_succ', List.append_assoc,
    waitForSonarJobFrom_ticks_pending w report k _ 0
      (fun j _ h2 => hbefore j (by omega))]
  simp [waitForSonarJobFrom, hjob, hs]

/-- C2 at a concrete input: `SUCCESS` arrives with the third response; the arms
are four ticks and then the timeout. -/
theorem waitForSonarJob_first_success_witness :
    waitForSonarJob (sampleWorld 3 "OK" 4) sampleReport (sampleWorld 3 "OK" 4).arms
      = ⟨.ret (.ok ⟨⟨"", "", "", "", "", "A1", "SUCCESS"⟩⟩), 3⟩ :=
  waitForSonarJob_first_success (sampleWorld 3 "OK" 4) sampleReport
    (sampleWorld 3 "OK" 4).arms 2 ⟨⟨"", "", "", "", "", "A1", "SUCCESS"⟩⟩
    (by decide)
    (fun j hj => by
      have hj2 : j = 0 ∨ j = 1 := by omega
      rcases hj2 with rfl | rfl
      · exact ⟨⟨⟨"", "", "", "", "", "", "PENDING"⟩⟩, by decide, by decide⟩
      · exact ⟨⟨⟨"", "", "", "", "", "", "PENDING"⟩⟩, by decide, by decide⟩)
    (by decide) (by decide)

/-- With a status source that never answers `SUCCESS`, the loop returns the
error `timed out` at the first timeout arm, after one request per tick, and
is still waiting if the arms hold no timeout. -/
theorem waitForSonarJob_never_success (w : World) (report : SonarReport)
    (h : ∀ j, ∃ job, getSonarJobStatus w j report = .ret job ∧ job.Task.Status ≠ "SUCCESS")
    (n : Nat) (rest : List Arm) :
    waitForSonarJob w report (List.replicate n .tick ++ .timeout :: rest)
        = ⟨.ret (.error "timed out"), n⟩
    ∧ waitForSonarJob w report (List.replicate n .tick) = ⟨.blocked, n⟩ := by
  unfold waitForSonarJob
  constructor
  · rw [waitForSonarJobFrom_ticks_pending w report n _ 0 (fun j _ _ => h j)]
    simp [waitForSonarJobFrom]
  · have := waitForSonarJobFrom_ticks_pending w report n [] 0 (fun j _ _ => h j)
    rw [List.append_nil] at this
    rw [this]
    simp [waitForSonarJobFrom]

/-- The status request whose response body is not JSON yields the zero task. -/
theorem getSonarJobStatus_malformed (w : World) (report : SonarReport) (req : Request)
    (hreq : getSonarJobStatusRequest w report = some req) (i : Nat)
    (hbody : w.taskEndpoint i req = .response .malformed) :
    getSonarJobStatus w i report = .ret TaskResponse.zero := by
  simp [getSonarJobStatus, hreq, hbody, unmarshalTaskResponse]

/-- C10: a status response whose body fails the JSON syntax check (the empty
body included) makes `getSonarJobStatus` return the zero task, whose status is
empty: the call does not end the process, the tick is not taken as success and
the loop goes on with the next arm.  A source that only ever returns such
bodies makes `waitForSonarJob` return the error `timed out` at the timeout arm,
after one request per tick. -/
theorem malformed_body_keeps_polling (w : World) (report : SonarReport) (req : Request)
    (hreq : getSonarJobStatusRequest w report = some req) :
    (∀ i, w.taskEndpoint i req = .response .malformed →
        getSonarJobStatus w i report = .ret TaskResponse.zero
        ∧ TaskResponse.zero.Task.Status = ""
        ∧ ∀ arms, waitForSonarJobFrom w report (.tick :: arms) i
            = waitForSonarJobFrom w report arms (i + 1))
    ∧ ((∀ i, w.taskEndpoint i req = .response .malformed) →
        ∀ n rest, waitForSonarJob w report (List.replicate n .tick ++ .timeout :: rest)
          = ⟨.ret (.error "timed out"), n⟩) := by
  constructor
  · intro i hbody
    have hz := getSonarJobStatus_malformed w report req hreq i hbody
    refine ⟨hz, rfl, fun arms => ?_⟩
    exact waitForSonarJobFrom_tick_pending w report arms i _ hz (by decide)
  · intro hall n rest
    refine (waitForSonarJob_never_success w report (fun j => ?_) n rest).1
    exact ⟨_, getSonarJobStatus_malformed w report req hreq j (hall j), by decide⟩

/-- C10 at a concrete input: three ticks answered by bodies that are not JSON,
then the timeout. -/
theorem malformed_body_keeps_polling_witness :
    waitForSonarJob (malformedWorld 3) sampleReport
        (List.replicate 3 .tick ++ .timeout :: [])
      = ⟨.ret (.error "timed out"), 3⟩ :=
  (malformed_body_keeps_polling (malformedWorld 3) sampleReport sampleTaskRequest
    (by decide)).2 (fun _ => rfl) 3 []

/-- C8: if the configuration is written and the manifest is decoded, the first
`k` status requests are answered by tasks that are not `SUCCESS` and request
number `k` fails in transport while the first `k + 1` arms are ticks, then
`getSonarJobStatus` ends the process on that request, `waitForSonarJob` returns
neither a task nor `timed out` and has issued exactly `k + 1` requests (the
failed one is the last), and the run ends with the fatal message of
`getSonarJobStatus`, whatever later requests would have returned. -/
theorem transport_error_is_fatal (w : World) (p : Plugin) (report : SonarReport)
    (log : List Event) (req : Request) (k : Nat) (err : String)
    (hcfg : buildScannerProperties w p = .ret none)
    (hscan : staticScan w = (.ret report, log))
    (hreq : getSonarJobStatusRequest w report = some req)
    (harms : w.arms.take (k + 1) = List.replicate (k + 1) Arm.tick)
    (hbefore : ∀ j, j < k →
      ∃ jb, getSonarJobStatus w j report = .ret jb ∧ jb.Task.Status ≠ "SUCCESS")
    (herr : w.taskEndpoint k req = .transportError err) :
    getSonarJobStatus w k report = .fatal "Failed get sonar job status"
    ∧ waitForSonarJob w report w.arms = ⟨.fatal "Failed get sonar job status", k + 1⟩
    ∧ (Exec w p).1 = .fatal "Failed get sonar job status" := by
  have h1 : getSonarJobStatus w k report = .fatal "Failed get sonar job status" := by
    simp [getSonarJobStatus, hreq, herr]
  have h2 : waitForSonarJob w report w.arms
      = ⟨.fatal "Failed get sonar job status", k + 1⟩ := by
    unfold waitForSonarJob
    rw [arms_eq_of_take_eq w.arms (k + 1) harms, List.replicate_succ', List.append_assoc,
      waitForSonarJobFrom_ticks_pending w report k _ 0
        (fun j _ h2 => hbefore j (by omega))]
    simp [waitForSonarJobFrom, h1]
  refine ⟨h1, h2, ?_⟩
  simp [Exec, hcfg, hscan, h2]

/-- C8 at a concrete input: the second status request fails in transport, the
third would have returned `SUCCESS`. -/
theorem transport_error_is_fatal_witness :
    getSonarJobStatus (flakyWorld 5) 1 sampleReport = .fatal "Failed get sonar job status"
    ∧ waitForSonarJob (flakyWorld 5) sampleReport (flakyWorld 5).arms
        = ⟨.fatal "Failed get sonar job status", 2⟩
    ∧ (Exec (flakyWorld 5) (samplePlugin "OK")).1 = .fatal "Failed get sonar job status" :=
  transport_error_is_fatal (flakyWorld 5) (samplePlugin "OK") sampleReport
    [.scannerSucceeded "EXECUTION SUCCESS"] sampleTaskRequest 1 "connection reset"
    (by decide) (by decide) (by decide) (by decide)
    (fun j hj => by
      have hj0 : j = 0 := by omega
      subst hj0
      exact ⟨⟨⟨"", "", "", "", "", "", "PENDING"⟩⟩, by decide, by decide⟩)
    rfl

/-! ## The whole run -/

/-- The function `buildScannerProperties` ends the process or returns nil. -/
theorem buildScannerProperties_cases (w : World) (p : Plugin) :
    buildScannerProperties w p = .ret none
    ∨ ∃ msg, buildScannerProperties w p = .fatal msg := by
  unfold buildScannerProperties
  simp only []
  split
  · exact Or.inr ⟨_, rfl⟩
  · split
    · exact Or.inr ⟨_, rfl⟩
    · split
      · exact Or.inr ⟨_, rfl⟩
      · exact Or.inl rfl

/-- The function `staticScan` ends the process or returns a report; it returns
one exactly when the scanner and `sed` succeed and the manifest is decoded,
and then the scanner's success is on record. -/
theorem staticScan_cases (w : World) :
    (∃ report output lines, staticScan w = (.ret report, [.scannerSucceeded output])
        ∧ w.scanner = .ok output ∧ w.reportTask = .ok lines
        ∧ tomlUnmarshal w (lines.map sedLine) = .ok report)
    ∨ (∃ msg log, staticScan w = (.fatal msg, log)) := by
  unfold staticScan
  cases hs : w.scanner with
  | error e => exact Or.inr ⟨_, _, rfl⟩
  | ok output =>
    cases hr : w.reportTask with
    | error e => exact Or.inr ⟨_, _, rfl⟩
    | ok lines =>
      cases ht : tomlUnmarshal w (lines.map sedLine) with
      | error e => exact Or.inr ⟨_, _, by simp [ht]; exact ⟨rfl, rfl⟩⟩
      | ok report => exact Or.inl ⟨report, output, lines, by simp [ht], rfl, rfl, ht⟩

/-- The function `getStatus` ends the process or returns a status. -/
theorem getStatus_cases (w : World) (task : TaskResponse) (report : SonarReport) :
    (∃ status, getStatus w task report = .ret status)
    ∨ (∃ msg, getStatus w task report = .fatal msg)
    ∨ getStatus w task report = .panicked := by
  unfold getStatus
  split
  · exact Or.inr (Or.inr rfl)
  · split
    · exact Or.inr (Or.inl ⟨_, rfl⟩)
    · simp only []
      split
      · exact Or.inr (Or.inl ⟨_, rfl⟩)
      · exact Or.inl ⟨_, rfl⟩

/-- What the poll loop can end with: a task whose status is `SUCCESS`, the
error `timed out`, the end of the process, or (only if the arms hold no
timeout) the end of the arms. -/
theorem waitForSonarJobFrom_cases (w : World) (report : SonarReport)
    (arms : List Arm) (i : Nat) :
    (∃ job, (waitForSonarJobFrom w report arms i).result = .ret (.ok job)
        ∧ job.Task.Status = "SUCCESS")
    ∨ (waitForSonarJobFrom w report arms i).result = .ret (.error "timed out")
    ∨ (∃ msg, (waitForSonarJobFrom w report arms i).result = .fatal msg)
    ∨ (waitForSonarJobFrom w report arms i).result = .panicked
    ∨ ((waitForSonarJobFrom w report arms i).result = .blocked ∧ Arm.timeout ∉ arms) := by
  induction arms generalizing i with
  | nil => simp [waitForSonarJobFrom]
  | cons a arms ih =>
    cases a with
    | timeout => simp [waitForSonarJobFrom]
    | tick =>
      unfold waitForSonarJobFrom
      cases hj : getSonarJobStatus w i report with
      | ret job =>
        by_cases hs : job.Task.Status = "SUCCESS"
        · simp [hs]
        · simpa [hs] using ih (i + 1)
      | fatal msg => simp
      | panicked => simp
      | blocked =>
        exfalso
        unfold getSonarJobStatus at hj
        split at hj
        · cases hj
        · split at hj <;> cases hj

/-- The method `Plugin.Exec` returns nil exactly when the record of the run
holds the scanner's success, a report, a task with status `SUCCESS` and a
verdict equal to `Plugin.Quality`; otherwise the process is ended, or the loop
is still waiting on a list of arms without the timeout. -/
theorem Exec_pass_iff_record (w : World) (p : Plugin) :
    ((Exec w p).1 = .ret none ↔
      ∃ output report job status,
        Event.scannerSucceeded output ∈ (Exec w p).2
        ∧ Event.reportParsed report ∈ (Exec w p).2
        ∧ Event.jobCompleted job ∈ (Exec w p).2 ∧ job.Task.Status = "SUCCESS"
        ∧ Event.verdict status ∈ (Exec w p).2 ∧ status = p.Quality)
    ∧ ((Exec w p).1 ≠ .ret none →
        (Exec w p).1.aborted = true
        ∨ ((Exec w p).1 = .blocked ∧ Arm.timeout ∉ w.arms)) := by
  rcases buildScannerProperties_cases w p with hb | ⟨msg, hb⟩
  swap
  · simp [Exec, hb, Run.aborted]
  rcases staticScan_cases w with ⟨report, output, lines, hscan, -, -, -⟩ | ⟨msg, log, hscan⟩
  swap
  · have hlog : ∀ e ∈ log, ∃ o, e = Event.scannerSucceeded o := by
      unfold staticScan at hscan
      split at hscan
      · cases hscan; simp
      · split at hscan
        · cases hscan; simp
        · split at hscan
          · cases hscan; simp
          · cases hscan
    have hE : Exec w p = (.fatal msg, log) := by simp [Exec, hb, hscan]
    rw [hE]
    refine ⟨⟨fun h => (by cases h), ?_⟩, fun _ => Or.inl rfl⟩
    rintro ⟨_, report, _, _, _, h2, _⟩
    obtain ⟨o, ho⟩ := hlog _ h2
    cases ho
  have hw := waitForSonarJobFrom_cases w report w.arms 0
  rcases hw with ⟨job, hw, hjs⟩ | hw | ⟨msg, hw⟩ | hw | ⟨hw, hno⟩
  · rcases getStatus_cases w job report with ⟨status, hg⟩ | ⟨msg, hg⟩ | hg
    · by_cases hq : status = p.Quality
      · simp [Exec, hb, hscan, waitForSonarJob, hw, hg, hq, hjs]
      · simp [Exec, hb, hscan, waitForSonarJob, hw, hg, hq, Run.aborted]
    · simp [Exec, hb, hscan, waitForSonarJob, hw, hg, Run.aborted]
    · simp [Exec, hb, hscan, waitForSonarJob, hw, hg, Run.aborted]
  · simp [Exec, hb, hscan, waitForSonarJob, hw, Run.aborted]
  · simp [Exec, hb, hscan, waitForSonarJob, hw, Run.aborted]
  · simp [Exec, hb, hscan, waitForSonarJob, hw, Run.aborted]
  · simp [Exec, hb, hscan, waitForSonarJob, hw, Run.aborted, hno]

/-- What the record of a run says about the run: an event is on record only
if the step it names was reached and ended as recorded. -/
theorem Exec_log_sound (w : World) (p : Plugin) :
    (∀ output, Event.scannerSucceeded output ∈ (Exec w p).2 →
      buildScannerProperties w p = .ret none ∧ w.scanner = .ok output)
    ∧ (∀ report, Event.reportParsed report ∈ (Exec w p).2 →
      (staticScan w).1 = .ret report)
    ∧ (∀ job, Event.jobCompleted job ∈ (Exec w p).2 →
      ∃ report, (staticScan w).1 = .ret report
        ∧ (waitForSonarJob w report w.arms).result = .ret (.ok job))
    ∧ (∀ status, Event.verdict status ∈ (Exec w p).2 →
      ∃ report job, (staticScan w).1 = .ret report
        ∧ (waitForSonarJob w report w.arms).result = .ret (.ok job)
        ∧ getStatus w job report = .ret status) := by
  rcases buildScannerProperties_cases w p with hb | ⟨msg, hb⟩
  swap
  · simp [Exec, hb]
  rcases staticScan_cases w with ⟨report, output, lines, hscan, hsc, -, -⟩ | ⟨msg, log, hscan⟩
  swap
  · have hlog : ∀ e ∈ log, ∃ o, e = Event.scannerSucceeded o ∧ w.scanner = .ok o := by
      unfold staticScan at hscan
      split at hscan
      · cases hscan; simp
      · rename_i o ho
        split at hscan
        · cases hscan; simpa using ho
        · split at hscan
          · cases hscan; simpa using ho
          · cases hscan
    have hE : Exec w p = (.fatal msg, log) := by simp [Exec, hb, hscan]
    rw [hE]
    refine ⟨?_, ?_, ?_, ?_⟩
    · intro o ho
      obtain ⟨o2, h1, h2⟩ := hlog _ ho
      cases h1
      exact ⟨hb, h2⟩
    · intro r hr
      obtain ⟨o2, h1, _⟩ := hlog _ hr
      cases h1
    · intro j hj
      obtain ⟨o2, h1, _⟩ := hlog _ hj
      cases h1
    · intro v hv
      obtain ⟨o2, h1, _⟩ := hlog _ hv
      cases h1
  have hw := waitForSonarJobFrom_cases w report w.arms 0
  rcases hw with ⟨job, hw, hjs⟩ | hw | ⟨msg, hw⟩ | hw | ⟨hw, hno⟩
  · rcases getStatus_cases w job report with ⟨status, hg⟩ | ⟨msg, hg⟩ | hg
    · by_cases hq : status = p.Quality
      · simp [Exec, hb, hscan, waitForSonarJob, hw, hg, hq, hsc]
      · simp [Exec, hb, hscan, waitForSonarJob, hw, hg, hq, hsc]
    · simp [Exec, hb, hscan, waitForSonarJob, hw, hg, hsc]
    · simp [Exec, hb, hscan, waitForSonarJob, hw, hg, hsc]
  · simp [Exec, hb, hscan, waitForSonarJob, hw, hsc]
  · simp [Exec, hb, hscan, waitForSonarJob, hw, hsc]
  · simp [Exec, hb, hscan, waitForSonarJob, hw, hsc]
  · simp [Exec, hb, hscan, waitForSonarJob, hw, hsc]

/-- C1: `Plugin.Exec` returns nil (PASS) if and only if the scanner process
succeeds (it is started, which takes `buildScannerProperties` to return, and it
exits with success), the manifest is decoded into a report (`staticScan`
returns it), `waitForSonarJob` returns a task and no error, the status of that
task being `SUCCESS`, `getStatus` returns a verdict, and that verdict is equal,
as a string (character by character, case included), to the configured
`Plugin.Quality`.  The same holds with the steps read off the record of the
run: PASS if and only if the record holds the scanner's success, the report, a
completed task with status `SUCCESS` and a verdict equal to `Plugin.Quality`.
In every other case the process is ended (logrus `Fatal` or a panic); the only
further outcome of the model, a loop still waiting, needs a list of arms
without the timeout. -/
theorem Exec_pass_iff (w : World) (p : Plugin) :
    ((Exec w p).1 = .ret none ↔
      buildScannerProperties w p = .ret none
      ∧ ∃ output report job status,
        w.scanner = .ok output
        ∧ (staticScan w).1 = .ret report
        ∧ (waitForSonarJob w report w.arms).result = .ret (.ok job)
        ∧ job.Task.Status = "SUCCESS"
        ∧ getStatus w job report = .ret status
        ∧ status = p.Quality)
    ∧ ((Exec w p).1 = .ret none ↔
      ∃ output report job status,
        Event.scannerSucceeded output ∈ (Exec w p).2
        ∧ Event.reportParsed report ∈ (Exec w p).2
        ∧ Event.jobCompleted job ∈ (Exec w p).2 ∧ job.Task.Status = "SUCCESS"
        ∧ Event.verdict status ∈ (Exec w p).2 ∧ status = p.Quality)
    ∧ ((Exec w p).1 ≠ .ret none →
        (Exec w p).1.aborted = true
        ∨ ((Exec w p).1 = .blocked ∧ Arm.timeout ∉ w.arms)) := by
  obtain ⟨hiff, hother⟩ := Exec_pass_iff_record w p
  obtain ⟨s1, s2, s3, s4⟩ := Exec_log_sound w p
  refine ⟨⟨fun hpass => ?_, ?_⟩, hiff, hother⟩
  · obtain ⟨output, report, job, status, e1, e2, e3, hjs, e4, hq⟩ := hiff.1 hpass
    have r2 := s2 report e2
    obtain ⟨report3, r3, r3w⟩ := s3 job e3
    obtain ⟨report4, job4, r4, r4w, r4g⟩ := s4 status e4
    have h3 : report3 = report := by
      rw [r2] at r3
      cases r3
      rfl
    have h4 : report4 = report := by
      rw [r2] at r4
      cases r4
      rfl
    subst h3
    subst h4
    have h5 : job4 = job := by
      rw [r3w] at r4w
      cases r4w
      rfl
    subst h5
    exact ⟨(s1 output e1).1, output, _, _, status, (s1 output e1).2, r2, r3w, hjs, r4g, hq⟩
  · rintro ⟨hb, output, report, job, status, -, hss, hw, -, hg, hq⟩
    cases hsw : staticScan w with
    | mk r log =>
      rw [hsw] at hss
      simp only at hss
      subst hss
      simp [Exec, hb, hsw, hw, hg, hq]

/-! ## The manifest -/

/-- A key that is not in a table is not found by `lookup`. -/
theorem lookup_eq_none_of_not_mem (table : List (String × String)) (k : String)
    (h : k ∉ table.map Prod.fst) : table.lookup k = none := by
  induction table with
  | nil => rfl
  | cons kv rest ih =>
    obtain ⟨k1, v1⟩ := kv
    simp only [List.map_cons, List.mem_cons, not_or] at h
    have hne : (k == k1) = false := by
      simpa using h.1
    simp [List.lookup, hne, ih h.2]

/-- A field none of whose three keys is in the table keeps the empty string. -/
theorem tomlField_eq_empty (table : List (String × String)) (name : String)
    (h : ∀ k ∈ [name, toLower name, toTitle name], k ∉ table.map Prod.fst) :
    tomlField table name = "" := by
  have h1 := lookup_eq_none_of_not_mem table name (h _ (by simp))
  have h2 := lookup_eq_none_of_not_mem table (toLower name) (h _ (by simp))
  have h3 := lookup_eq_none_of_not_mem table (toTitle name) (h _ (by simp))
  simp [tomlField, List.findSome?, h1, h2, h3]

/-- C5, as the code has it: for a manifest of plain `key=value` lines with
different keys, `staticScan` does not fail for a key that is absent.  If the
scanner and `sed` succeed it returns the report filled from the lines, and a
field whose key is in none of the lines (under the name of its tag, that name
in lower case or in upper case) is the empty string; this holds for
`ServerURL` and for `CeTaskURL`. -/
theorem staticScan_absent_key (w : World) (output : String) (lines : List String)
    (table : List (String × String))
    (hs : w.scanner = .ok output) (hr : w.reportTask = .ok lines)
    (ht : tomlTable (lines.map sedLine) = some table) :
    ∃ report, staticScan w = (.ret report, [.scannerSucceeded output])
      ∧ report = tomlBind table
      ∧ ((∀ k ∈ ["serverUrl", "serverurl", "SERVERURL"], k ∉ table.map Prod.fst) →
          report.ServerURL = "")
      ∧ ((∀ k ∈ ["ceTaskUrl", "cetaskurl", "CETASKURL"], k ∉ table.map Prod.fst) →
          report.CeTaskURL = "") := by
  refine ⟨tomlBind table, ?_, rfl, ?_, ?_⟩
  · simp [staticScan, hs, hr, tomlUnmarshal, ht]
  · intro h
    exact tomlField_eq_empty table "serverUrl" h
  · intro h
    exact tomlField_eq_empty table "ceTaskUrl" h

/-- C5 at a concrete input: the manifest holds `projectKey` and `ceTaskId`
only. -/
theorem staticScan_absent_key_witness :
    ∃ report, staticScan incompleteWorld
        = (.ret report, [.scannerSucceeded "EXECUTION SUCCESS"])
      ∧ report = tomlBind [("projectKey", "demo"), ("ceTaskId", "AX1")]
      ∧ ((∀ k ∈ ["serverUrl", "serverurl", "SERVERURL"],
            k ∉ [("projectKey", "demo"), ("ceTaskId", "AX1")].map Prod.fst) →
          report.ServerURL = "")
      ∧ ((∀ k ∈ ["ceTaskUrl", "cetaskurl", "CETASKURL"],
            k ∉ [("projectKey", "demo"), ("ceTaskId", "AX1")].map Prod.fst) →
          report.CeTaskURL = "") :=
  staticScan_absent_key incompleteWorld "EXECUTION SUCCESS"
    ["projectKey=demo", "ceTaskId=AX1"] [("projectKey", "demo"), ("ceTaskId", "AX1")]
    rfl rfl (by decide)

/-- C5 fails as stated: on the manifest with the two lines `projectKey=demo`
and `ceTaskId=AX1`, which has neither `serverUrl` nor `ceTaskUrl`,
`staticScan` does not fail; it returns a report whose `ServerURL` and
`CeTaskURL` are the empty string. -/
theorem staticScan_incomplete_manifest_returns :
    (staticScan incompleteWorld).1 = .ret ⟨"demo", "", "", "AX1", ""⟩
    ∧ (⟨"demo", "", "", "AX1", ""⟩ : SonarReport).ServerURL = ""
    ∧ (⟨"demo", "", "", "AX1", ""⟩ : SonarReport).CeTaskURL = ""
    ∧ ¬ ∃ msg, (staticScan incompleteWorld).1 = .fatal msg := by
  have h : (staticScan incompleteWorld).1 = .ret ⟨"demo", "", "", "AX1", ""⟩ := by decide
  refine ⟨h, rfl, rfl, ?_⟩
  rintro ⟨msg, hmsg⟩
  rw [h] at hmsg
  cases hmsg

/-! ## The quality gate -/

/-- Members that are decoded into no field leave the `ProjectStatus` alone. -/
theorem foldl_decodeProjectStatusMember_skip (ms : List (String × Json))
    (st : ProjectStatus × Bool)
    (h : ∀ kv ∈ ms, fieldFor ["status"] kv.1 = none) :
    ms.foldl decodeProjectStatusMember st = st := by
  induction ms generalizing st with
  | nil => rfl
  | cons kv ms ih =>
    have hkv := h kv (List.mem_cons_self _ _)
    rw [List.foldl_cons, show decodeProjectStatusMember st kv = st by
      simp [decodeProjectStatusMember, hkv]]
    exact ih st (fun x hx => h x (List.mem_cons_of_mem _ hx))

/-- Members that are decoded into no field leave the response struct alone. -/
theorem foldl_decodeProjectStatusResponseMember_skip (ms : List (String × Json))
    (st : ProjectStatusResponse × Bool)
    (h : ∀ kv ∈ ms, fieldFor ["projectStatus"] kv.1 = none) :
    ms.foldl decodeProjectStatusResponseMember st = st := by
  induction ms generalizing st with
  | nil => rfl
  | cons kv ms ih =>
    have hkv := h kv (List.mem_cons_self _ _)
    rw [List.foldl_cons, show decodeProjectStatusResponseMember st kv = st by
      simp [decodeProjectStatusResponseMember, hkv]]
    exact ih st (fun x hx => h x (List.mem_cons_of_mem _ hx))

/-- C6, as the code has it: for every string `s`, if the gate service answers
with a JSON object in which exactly one member is decoded into `projectStatus`
(its key is `projectStatus`, no other key is that name exactly or up to case),
that member being an object in which exactly one member is decoded into
`status`, the string `s`, then `getStatus` returns exactly `s`, with no
trimming, case change or other modification. -/
theorem getStatus_returns_status (w : World) (task : TaskResponse) (report : SonarReport)
    (req : Request) (s : String) (pre post ipre ipost : List (String × Json))
    (hreq : getStatusRequest w task report = some req)
    (hbody : w.gateEndpoint req = .response (.json (.obj
      (pre ++ ("projectStatus", .obj (ipre ++ ("status", .str s) :: ipost)) :: post))))
    (hout : ∀ kv ∈ pre ++ post, fieldFor ["projectStatus"] kv.1 = none)
    (hin : ∀ kv ∈ ipre ++ ipost, fieldFor ["status"] kv.1 = none) :
    getStatus w task report = .ret s := by
  have hpre : ∀ kv ∈ pre, fieldFor ["projectStatus"] kv.1 = none :=
    fun kv hkv => hout kv (List.mem_append_left _ hkv)
  have hpost : ∀ kv ∈ post, fieldFor ["projectStatus"] kv.1 = none :=
    fun kv hkv => hout kv (List.mem_append_right _ hkv)
  have hipre : ∀ kv ∈ ipre, fieldFor ["status"] kv.1 = none :=
    fun kv hkv => hin kv (List.mem_append_left _ hkv)
  have hipost : ∀ kv ∈ ipost, fieldFor ["status"] kv.1 = none :=
    fun kv hkv => hin kv (List.mem_append_right _ hkv)
  have hf1 : fieldFor ["projectStatus"] "projectStatus" = some "projectStatus" := by decide
  have hf2 : fieldFor ["status"] "status" = some "status" := by decide
  have hinner : decodeProjectStatus (⟨""⟩, false)
      (.obj (ipre ++ ("status", .str s) :: ipost)) = (⟨s⟩, false) := by
    simp only [decodeProjectStatus, List.foldl_append, List.foldl_cons]
    rw [foldl_decodeProjectStatusMember_skip ipre _ hipre]
    rw [show decodeProjectStatusMember (⟨""⟩, false) ("status", .str s) = (⟨s⟩, false) by
      simp [decodeProjectStatusMember, hf2, storeString]]
    exact foldl_decodeProjectStatusMember_skip ipost _ hipost
  have houter : unmarshalProjectStatusResponse ProjectStatusResponse.zero (.json (.obj
      (pre ++ ("projectStatus", .obj (ipre ++ ("status", .str s) :: ipost)) :: post)))
      = (⟨⟨s⟩⟩, false) := by
    simp only [unmarshalProjectStatusResponse, List.foldl_append, List.foldl_cons]
    rw [foldl_decodeProjectStatusResponseMember_skip pre _ hpre]
    rw [show decodeProjectStatusResponseMember (ProjectStatusResponse.zero, false)
        ("projectStatus", .obj (ipre ++ ("status", .str s) :: ipost)) = (⟨⟨s⟩⟩, false) by
      simp only [decodeProjectStatusResponseMember, hf1, ProjectStatusResponse.zero]
      rw [hinner]]
    exact foldl_decodeProjectStatusResponseMember_skip post _ hpost
  simp [getStatus, hreq, hbody, houter]

/-- C6 at a concrete input: the gate answers `ERROR`. -/
theorem getStatus_returns_status_witness :
    getStatus (sampleWorld 1 "ERROR" 3) ⟨⟨"", "", "", "", "", "A1", "SUCCESS"⟩⟩
      sampleReport = .ret "ERROR" :=
  getStatus_returns_status (sampleWorld 1 "ERROR" 3)
    ⟨⟨"", "", "", "", "", "A1", "SUCCESS"⟩⟩ sampleReport sampleGateRequest "ERROR"
    [] [] [] [] (by decide) rfl (by simp) (by simp)

/-- C6 fails as stated: the gate answers with well-formed JSON whose
`projectStatus.status` is `OK`.  With a further member `STATUS` equal to
`ERROR` after it, `getStatus` returns `ERROR`, since the decoder stores members
whose key matches the field name up to case too and the last one stored stays;
with a further top-level member `projectstatus` that is an array the decoder
returns a type error and `getStatus` ends the process. -/
theorem getStatus_other_member :
    getStatus twoStatusWorld ⟨⟨"", "", "", "", "", "A1", "SUCCESS"⟩⟩ sampleReport
      = .ret "ERROR"
    ∧ getStatus twoStatusWorld ⟨⟨"", "", "", "", "", "A1", "SUCCESS"⟩⟩ sampleReport
      ≠ .ret "OK"
    ∧ getStatus arrayMemberWorld ⟨⟨"", "", "", "", "", "A1", "SUCCESS"⟩⟩ sampleReport
      = .fatal "Failed" := by
  decide

/-- A rune that is not to be escaped is escaped to itself. -/
theorem escape_unreserved (c : Char) (h : shouldEscape c.toNat = false) :
    (utf8Bytes c).flatMap escapeByte = [c] := by
  have hlt : c.toNat < 0x80 ∧ c.toNat ≠ 0x20 := by
    simp [shouldEscape] at h
    omega
  have hu : utf8Bytes c = [c.toNat] := by
    simp [utf8Bytes, hlt.1]
  simp [hu, escapeByte, hlt.2, h, Char.ofNat_toNat]

/-- The function `url.QueryEscape` leaves a string of ASCII letters, digits and
`-`, `_`, `.`, `~` as it is. -/
theorem QueryEscape_unreserved (a : String)
    (h : ∀ c ∈ a.toList, shouldEscape c.toNat = false) : QueryEscape a = a := by
  have key : ∀ l : List Char, (∀ c ∈ l, shouldEscape c.toNat = false) →
      l.flatMap (fun c => (utf8Bytes c).flatMap escapeByte) = l := by
    intro l
    induction l with
    | nil => intro _; rfl
    | cons c l ih =>
      intro hl
      rw [List.flatMap_cons, escape_unreserved c (hl c (List.mem_cons_self _ _)),
        ih (fun x hx => hl x (List.mem_cons_of_mem _ hx))]
      rfl
  unfold QueryEscape
  rw [key a.toList h]
  rfl

/-- The query string of the gate request. -/
theorem valuesEncode_analysisId (a : String) :
    valuesEncode [("analysisId", [a])] = "analysisId=" ++ QueryEscape a := by
  have h : QueryEscape "analysisId" = "analysisId" := by decide
  simp [valuesEncode, String.intercalate, String.intercalate.go, h]

/-- C9, as the code has it: the string `getStatus` hands to `http.NewRequest`
is the server URL followed by `/api/qualitygates/project_status?analysisId=`
followed by the query-escaped analysis id (`url.Values.Encode`); it is followed
by the id itself when the id is made of ASCII letters, digits and `-`, `_`,
`.`, `~`.  The request is made exactly when `net/url` accepts that string; it
is a `GET` whose URL is what `net/url` makes of the string, and its only header
is `Authorization` with the value `Basic ` plus the `TOKEN` variable.  The
task-status request is built in the same way from `CeTaskURL` and carries the
same header. -/
theorem getStatus_request (w : World) (task : TaskResponse) (report : SonarReport) :
    getStatusURL task report
        = report.ServerURL ++ "/api/qualitygates/project_status?analysisId="
          ++ QueryEscape task.Task.AnalysisID
    ∧ ((∀ c ∈ task.Task.AnalysisID.toList, shouldEscape c.toNat = false) →
        getStatusURL task report
          = report.ServerURL ++ "/api/qualitygates/project_status?analysisId="
            ++ task.Task.AnalysisID)
    ∧ getStatusRequest w task report
        = (w.urlParse (getStatusURL task report)).map
            (fun parsed => ⟨"GET", parsed, [("Authorization", "Basic " ++ w.TOKEN)]⟩)
    ∧ getSonarJobStatusRequest w report
        = (w.urlParse report.CeTaskURL).map
            (fun parsed => ⟨"GET", parsed, [("Authorization", "Basic " ++ w.TOKEN)]⟩)
    ∧ (∀ req req2, getStatusRequest w task report = some req →
        getSonarJobStatusRequest w report = some req2 →
        req.headerGet "Authorization" = some ("Basic " ++ w.TOKEN)
        ∧ req2.headerGet "Authorization" = req.headerGet "Authorization") := by
  have hurl : getStatusURL task report
      = report.ServerURL ++ "/api/qualitygates/project_status?analysisId="
        ++ QueryEscape task.Task.AnalysisID := by
    have hc : "/api/qualitygates/project_status?" ++ "analysisId="
        = "/api/qualitygates/project_status?analysisId=" := by decide
    unfold getStatusURL
    rw [valuesEncode_analysisId, String.append_assoc, String.append_assoc,
      ← String.append_assoc _ "analysisId=", hc]
  have h3 : getStatusRequest w task report
      = (w.urlParse (getStatusURL task report)).map
          (fun parsed => ⟨"GET", parsed, [("Authorization", "Basic " ++ w.TOKEN)]⟩) := by
    unfold getStatusRequest NewRequest
    cases w.urlParse (getStatusURL task report) <;> simp [Request.headerAdd]
  have h4 : getSonarJobStatusRequest w report
      = (w.urlParse report.CeTaskURL).map
          (fun parsed => ⟨"GET", parsed, [("Authorization", "Basic " ++ w.TOKEN)]⟩) := by
    unfold getSonarJobStatusRequest NewRequest
    cases w.urlParse report.CeTaskURL <;> simp [Request.headerAdd]
  refine ⟨hurl, ?_, h3, h4, ?_⟩
  · intro h
    rw [hurl, QueryEscape_unreserved _ h]
  · intro req req2 hreq hreq2
    rw [h3] at hreq
    rw [h4] at hreq2
    cases hp : w.urlParse (getStatusURL task report) with
    | none => simp [hp] at hreq
    | some parsed =>
      cases hp2 : w.urlParse report.CeTaskURL with
      | none => simp [hp2] at hreq2
      | some parsed2 =>
        simp only [hp, Option.map_some', Option.some.injEq] at hreq
        simp only [hp2, Option.map_some', Option.some.injEq] at hreq2
        subst hreq
        subst hreq2
        simp [Request.headerGet, List.lookup]

/-- C9 fails as stated: for the analysis id `A+1/b c` the string handed to
`http.NewRequest`, and with it the URL of the request, is not the server URL,
the path and the id; the id is escaped. -/
theorem getStatusURL_escapes :
    getStatusURL ⟨⟨"", "", "", "", "", "A+1/b c", "SUCCESS"⟩⟩ sampleReport
      = "https://s.example/api/qualitygates/project_status?analysisId=A%2B1%2Fb+c"
    ∧ (getStatusRequest (sampleWorld 1 "OK" 3)
          ⟨⟨"", "", "", "", "", "A+1/b c", "SUCCESS"⟩⟩ sampleReport).map Request.URL
      = some "https://s.example/api/qualitygates/project_status?analysisId=A%2B1%2Fb+c"
    ∧ getStatusURL ⟨⟨"", "", "", "", "", "A+1/b c", "SUCCESS"⟩⟩ sampleReport
      ≠ sampleReport.ServerURL ++ "/api/qualitygates/project_status?analysisId="
          ++ "A+1/b c" := by
  decide

/-! ## The poll loop with its timers -/

/-- The timeout arm is only taken at or after the deadline, and if the deadline
has passed or will pass before the ticker fires again: the `select` does not
wait on when a channel is ready. -/
theorem selectArm_timeout_time (s : Schedule) (n now : Nat) (held : Bool) (t : Nat)
    (h : selectArm s n now held = (.timeout, t)) :
    timeoutAfter ≤ t ∧ now ≤ t ∧ timeoutAfter ≤ now + tickEvery := by
  unfold selectArm at h
  simp only [timeoutAfter, tickEvery] at h ⊢
  split_ifs at h
  all_goals first | (cases h; done) | (have ht := (Prod.mk.inj h).2; omega)

/-- The tick arm is taken at the latest one period after the `select` is
entered. -/
theorem selectArm_tick_time (s : Schedule) (n now : Nat) (held : Bool) (t : Nat)
    (h : selectArm s n now held = (.tick, t)) : now ≤ t ∧ t ≤ now + tickEvery := by
  unfold selectArm at h
  simp only [timeoutAfter, tickEvery] at h ⊢
  split_ifs at h
  all_goals first | (cases h; done) | (have ht := (Prod.mk.inj h).2; omega)

/-- One iteration of the timed loop whose status request is answered by a task
that is not `SUCCESS`. -/
theorem waitForSonarJobAt_tick_pending (w : World) (s : Schedule) (report : SonarReport)
    (fuel i now : Nat) (held : Bool) (t : Nat) (job : TaskResponse)
    (hsel : selectArm s i now held = (.tick, t))
    (hjob : getSonarJobStatus w i report = .ret job)
    (hs : job.Task.Status ≠ "SUCCESS") :
    waitForSonarJobAt w s report (fuel + 1) i now held
      = (waitForSonarJobAt w s report fuel (i + 1) (t + s.requestTime i)
          (decide (t / tickEvery < (t + s.requestTime i) / tickEvery))).after .tick := by
  simp [waitForSonarJobAt, hsel, hjob, hs]

/-- One iteration of the timed loop that takes the timeout arm. -/
theorem waitForSonarJobAt_timeout (w : World) (s : Schedule) (report : SonarReport)
    (fuel i now : Nat) (held : Bool) (t : Nat)
    (hsel : selectArm s i now held = (.timeout, t)) :
    waitForSonarJobAt w s report (fuel + 1) i now held
      = ⟨.ret (.error "timed out"), i, t, [.timeout]⟩ := by
  simp [waitForSonarJobAt, hsel]

/-- Taking the tick arm and making a request keeps the ticks accounted. -/
theorem ticksAccounted_step (s : Schedule) (i now : Nat) (held : Bool) (t d : Nat)
    (hacc : ticksAccounted i now held)
    (hsel : selectArm s i now held = (.tick, t)) :
    ticksAccounted (i + 1) (t + d) (decide (t / tickEvery < (t + d) / tickEvery)) := by
  unfold ticksAccounted at hacc ⊢
  unfold selectArm at hsel
  simp only [timeoutAfter, tickEvery] at hacc hsel ⊢
  have hmono : t / 500 ≤ (t + d) / 500 := Nat.div_le_div_right (Nat.le_add_right t d)
  have hk : i + 1 ≤ t / 500 := by
    split_ifs at hsel with h1 h2 h3 h4 h5
    all_goals first | (cases hsel; done) | skip
    all_goals have ht := (Prod.mk.inj hsel).2
    · simp only [h2, if_true] at hacc
      omega
    · simp only [h3, if_true] at hacc
      omega
    · simp only [h3] at hacc
      simp at hacc
      omega
    · simp only [h3] at hacc
      simp at hacc
      omega
  by_cases hb : t / 500 < (t + d) / 500
  · simp only [hb, decide_True, if_true]; omega
  · simp only [hb, decide_False]; simp; omega

/-- From the six hundredth iteration on the deadline has passed. -/
theorem selectArm_late (s : Schedule) (n now : Nat) (held : Bool)
    (hacc : ticksAccounted n now held) (hn : 600 ≤ n) (hc : s.choice n = .timeout) :
    selectArm s n now held = (.timeout, now) := by
  unfold ticksAccounted at hacc
  unfold selectArm
  simp only [timeoutAfter, tickEvery] at hacc ⊢
  have hnow : 300 * 1000 ≤ now := by
    have h2 : n ≤ now / 500 := by omega
    omega
  simp [hnow, hc]

/-- With a status source that never answers `SUCCESS`, a run of the timed loop
for `fuel` iterations from a state with the ticks accounted either is still
polling, having made one request on each of `fuel` ticks and never waited
longer than one period for a tick, or has returned `timed out` at or after the
deadline, having made one request on each tick before, none of them on a tick
that had not fired and none later than one period after the request before. -/
theorem waitForSonarJobAt_never_success (w : World) (s : Schedule) (report : SonarReport)
    (h : ∀ j, ∃ job, getSonarJobStatus w j report = .ret job ∧ job.Task.Status ≠ "SUCCESS")
    (fuel i now : Nat) (held : Bool) (hacc : ticksAccounted i now held) :
    ((waitForSonarJobAt w s report fuel i now held).result = .blocked
      ∧ (waitForSonarJobAt w s report fuel i now held).arms = List.replicate fuel .tick
      ∧ (waitForSonarJobAt w s report fuel i now held).requests = i + fuel
      ∧ (waitForSonarJobAt w s report fuel i now held).elapsed
          ≤ now + tickEvery * fuel + requestTimeFrom s i fuel)
    ∨ ((waitForSonarJobAt w s report fuel i now held).result = .ret (.error "timed out")
      ∧ timeoutAfter ≤ (waitForSonarJobAt w s report fuel i now held).elapsed
      ∧ ∃ k, k < fuel
        ∧ (waitForSonarJobAt w s report fuel i now held).arms
            = List.replicate k .tick ++ [.timeout]
        ∧ (waitForSonarJobAt w s report fuel i now held).requests = i + k
        ∧ timeoutAfter ≤ now + tickEvery * (k + 1) + requestTimeFrom s i k
        ∧ tickEvery * (i + k)
            ≤ (waitForSonarJobAt w s report fuel i now held).elapsed) := by
  induction fuel generalizing i now held with
  | zero =>
    refine Or.inl ⟨rfl, rfl, rfl, ?_⟩
    simp [waitForSonarJobAt, requestTimeFrom]
  | succ fuel ih =>
    cases hsel : selectArm s i now held with
    | mk a t =>
      cases a with
      | timeout =>
        rw [waitForSonarJobAt_timeout w s report fuel i now held t hsel]
        obtain ⟨h1, h2, h3⟩ := selectArm_timeout_time s i now held t hsel
        refine Or.inr ⟨rfl, h1, 0, by omega, rfl, rfl, ?_, ?_⟩
        · simpa [requestTimeFrom] using h3
        · unfold ticksAccounted at hacc
          simp only [tickEvery] at hacc ⊢
          have h4 : i ≤ now / 500 := by omega
          simp only [Nat.add_zero]
          omega
      | tick =>
        obtain ⟨job, hjob, hs⟩ := h i
        obtain ⟨ht1, ht2⟩ := selectArm_tick_time s i now held t hsel
        rw [waitForSonarJobAt_tick_pending w s report fuel i now held t job hsel hjob hs]
        rcases ih (i + 1) (t + s.requestTime i)
            (decide (t / tickEvery < (t + s.requestTime i) / tickEvery))
            (ticksAccounted_step s i now held t (s.requestTime i) hacc hsel) with
          ⟨h1, h2, h3, h4⟩ | ⟨h1, h2, k, hk, h3, h4, h5, h6⟩
        · refine Or.inl ⟨h1, ?_, ?_, ?_⟩
          · simp [TimedPoll.after, h2, List.replicate_succ]
          · simp only [TimedPoll.after, h3]; omega
          · simp only [TimedPoll.after, requestTimeFrom, tickEvery] at h4 ht2 ⊢
            omega
        · refine Or.inr ⟨h1, h2, k + 1, by omega, ?_, ?_, ?_, ?_⟩
          · simp [TimedPoll.after, h3, List.replicate_succ]
          · simp only [TimedPoll.after, h4]; omega
          · simp only [requestTimeFrom, tickEvery, timeoutAfter] at h5 ht2 ⊢
            omega
          · simp only [TimedPoll.after, tickEvery] at h6 ⊢
            have e : i + (k + 1) = i + 1 + k := by omega
            rw [e]
            exact h6

/-- With a status source that never answers `SUCCESS`, if the `select` of
iteration `n` (at least the six hundredth) does not take the tick arm when both
channels are ready, then the loop, from a state `m` iterations before with the
ticks accounted, returns `timed out` within `m + 1` iterations. -/
theorem waitForSonarJobAt_times_out (w : World) (s : Schedule) (report : SonarReport)
    (h : ∀ j, ∃ job, getSonarJobStatus w j report = .ret job ∧ job.Task.Status ≠ "SUCCESS")
    (n : Nat) (hn : 600 ≤ n) (hc : s.choice n = .timeout)
    (m i now : Nat) (held : Bool) (hi : i + m = n) (hacc : ticksAccounted i now held) :
    (waitForSonarJobAt w s report (m + 1) i now held).result = .ret (.error "timed out") := by
  induction m generalizing i now held with
  | zero =>
    have hin : i = n := by omega
    subst hin
    rw [waitForSonarJobAt_timeout w s report 0 i now held now
      (selectArm_late s i now held hacc hn hc)]
  | succ m ih =>
    cases hsel : selectArm s i now held with
    | mk a t =>
      cases a with
      | timeout => rw [waitForSonarJobAt_timeout w s report (m + 1) i now held t hsel]
      | tick =>
        obtain ⟨job, hjob, hs⟩ := h i
        rw [waitForSonarJobAt_tick_pending w s report (m + 1) i now held t job hsel hjob hs]
        exact ih (i + 1) (t + s.requestTime i) _ (by omega)
          (ticksAccounted_step s i now held t (s.requestTime i) hacc hsel)

/-- C3: with a status source that never answers `SUCCESS` (it may answer
`FAILED`, `CANCELED`, `PENDING`, `IN_PROGRESS`, the empty status or any other),
whatever the requests take and whatever `select` chooses, a run of
`waitForSonarJob` cut after `fuel` iterations is in one of two states.  Either
it is still polling: it has made a request on each of `fuel` ticks and has
never let more than one period pass without a request.  Or it has returned the
error `timed out` (and no task) at an elapsed time of at least 300000 ms, after
`k` ticks with one request each and then the timeout arm; the `k` requests are
all the ticks there were: the deadline is within `k + 1` periods plus the time
the requests took, and no request was made on a tick that had not fired
(`500 * k` is at most the elapsed time).  So it never returns a task and never
ends early.  And it does return `timed out`: within `n + 1` iterations if the
`select` of some iteration `n` from the six hundredth on does not prefer the
tick when both channels are ready. -/
theorem waitForSonarJobTimed_never_success (w : World) (s : Schedule) (report : SonarReport)
    (h : ∀ j, ∃ job, getSonarJobStatus w j report = .ret job ∧ job.Task.Status ≠ "SUCCESS") :
    (∀ fuel,
      ((waitForSonarJobTimed w s report fuel).result = .blocked
        ∧ (waitForSonarJobTimed w s report fuel).arms = List.replicate fuel .tick
        ∧ (waitForSonarJobTimed w s report fuel).requests = fuel
        ∧ (waitForSonarJobTimed w s report fuel).elapsed
            ≤ 500 * fuel + requestTimeFrom s 0 fuel)
      ∨ ((waitForSonarJobTimed w s report fuel).result = .ret (.error "timed out")
        ∧ 300000 ≤ (waitForSonarJobTimed w s report fuel).elapsed
        ∧ ∃ k, k < fuel
          ∧ (waitForSonarJobTimed w s report fuel).arms
              = List.replicate k .tick ++ [.timeout]
          ∧ (waitForSonarJobTimed w s report fuel).requests = k
          ∧ 300000 ≤ 500 * (k + 1) + requestTimeFrom s 0 k
          ∧ 500 * k ≤ (waitForSonarJobTimed w s report fuel).elapsed))
    ∧ (∀ n, 600 ≤ n → s.choice n = .timeout →
        (waitForSonarJobTimed w s report (n + 1)).result = .ret (.error "timed out")) := by
  have hacc : ticksAccounted 0 0 false := by simp [ticksAccounted]
  constructor
  · intro fuel
    have := waitForSonarJobAt_never_success w s report h fuel 0 0 false hacc
    simpa [waitForSonarJobTimed, timeoutAfter, tickEvery] using this
  · intro n hn hc
    exact waitForSonarJobAt_times_out w s report h n hn hc n 0 0 false (by omega) hacc

set_option maxRecDepth 1000000 in
/-- C3 at a concrete input: every status response is `FAILED` and requests
take no time.  The run makes 599 requests, on the ticks at 500 ms to 299500 ms,
and returns `timed out` at 300000 ms. -/
theorem waitForSonarJobTimed_never_success_witness :
    (waitForSonarJobTimed failedWorld promptSchedule sampleReport 601).result
      = .ret (.error "timed out")
    ∧ (waitForSonarJobTimed failedWorld promptSchedule sampleReport 601).requests = 599
    ∧ (waitForSonarJobTimed failedWorld promptSchedule sampleReport 601).elapsed
      = 300000 :=
  ⟨(waitForSonarJobTimed_never_success failedWorld promptSchedule sampleReport
    (fun _ => ⟨⟨⟨"", "", "", "", "", "", "FAILED"⟩⟩, rfl, by decide⟩)).2
    600 (Nat.le_refl 600) rfl, by decide, by decide⟩

/-- C4, as the code has it: with the period of 500 ms and the deadline of 300 s,
status requests that take no time and a status source whose third response is
the first with status `SUCCESS`, `waitForSonarJob` returns the task of that
third response at the elapsed time 1500 ms (the ticker fires first one period
after its start), after three requests on three ticks. -/
theorem waitForSonarJobTimed_third_tick (w : World) (s : Schedule) (report : SonarReport)
    (job : TaskResponse) (fuel : Nat)
    (hd : ∀ i, s.requestTime i = 0)
    (h0 : ∃ jb, getSonarJobStatus w 0 report = .ret jb ∧ jb.Task.Status ≠ "SUCCESS")
    (h1 : ∃ jb, getSonarJobStatus w 1 report = .ret jb ∧ jb.Task.Status ≠ "SUCCESS")
    (h2 : getSonarJobStatus w 2 report = .ret job) (hs : job.Task.Status = "SUCCESS")
    (hf : 3 ≤ fuel) :
    waitForSonarJobTimed w s report fuel
      = ⟨.ret (.ok job), 3, 1500, [.tick, .tick, .tick]⟩ := by
  obtain ⟨f, rfl⟩ : ∃ f, fuel = f + 3 := ⟨fuel - 3, by omega⟩
  obtain ⟨j0, hj0, hs0⟩ := h0
  obtain ⟨j1, hj1, hs1⟩ := h1
  have e0 : selectArm s 0 0 false = (.tick, 500) := by
    simp [selectArm, timeoutAfter, tickEvery]
  have e1 : selectArm s 1 500 false = (.tick, 1000) := by
    simp [selectArm, timeoutAfter, tickEvery]
  have e2 : selectArm s 2 1000 false = (.tick, 1500) := by
    simp [selectArm, timeoutAfter, tickEvery]
  unfold waitForSonarJobTimed
  rw [waitForSonarJobAt_tick_pending w s report (f + 2) 0 0 false 500 j0 e0 hj0 hs0]
  simp only [hd, Nat.add_zero, Nat.lt_irrefl, decide_False, Nat.zero_add]
  rw [waitForSonarJobAt_tick_pending w s report (f + 1) 1 500 false 1000 j1 e1 hj1 hs1]
  simp only [hd, Nat.add_zero, Nat.lt_irrefl, decide_False, Nat.reduceAdd]
  simp [waitForSonarJobAt, e2, h2, hs, hd, TimedPoll.after]

/-- C4 at a concrete input: `PENDING`, `PENDING`, then `SUCCESS` with the
analysis id `A1`. -/
theorem waitForSonarJobTimed_third_tick_witness :
    waitForSonarJobTimed (sampleWorld 3 "OK" 0) promptSchedule sampleReport 5
      = ⟨.ret (.ok ⟨⟨"", "", "", "", "", "A1", "SUCCESS"⟩⟩), 3, 1500,
          [.tick, .tick, .tick]⟩ :=
  waitForSonarJobTimed_third_tick (sampleWorld 3 "OK" 0) promptSchedule sampleReport
    ⟨⟨"", "", "", "", "", "A1", "SUCCESS"⟩⟩ 5 (fun _ => rfl)
    ⟨⟨⟨"", "", "", "", "", "", "PENDING"⟩⟩, by decide, by decide⟩
    ⟨⟨⟨"", "", "", "", "", "", "PENDING"⟩⟩, by decide, by decide⟩
    (by decide) (by decide) (by decide)

/-- C4 fails as stated: with `SUCCESS` first on the third tick and requests
that take no time, the run completes at 1500 ms, which is not below 1500 ms. -/
theorem third_tick_not_before_1500 :
    (waitForSonarJobTimed (sampleWorld 3 "OK" 0) promptSchedule sampleReport 5).result
      = .ret (.ok ⟨⟨"", "", "", "", "", "A1", "SUCCESS"⟩⟩)
    ∧ (waitForSonarJobTimed (sampleWorld 3 "OK" 0) promptSchedule sampleReport 5).elapsed
      = 1500
    ∧ ¬ (1000 ≤ (waitForSonarJobTimed (sampleWorld 3 "OK" 0) promptSchedule
            sampleReport 5).elapsed
        ∧ (waitForSonarJobTimed (sampleWorld 3 "OK" 0) promptSchedule
            sampleReport 5).elapsed < 1500) := by
  decide

/-- C7, as the code has it: when `select` is entered at or after the deadline
while the ticker channel holds a tick (both channels are ready) and the status
request of that tick would be answered `SUCCESS`, the outcome follows the arm
`select` takes: `timed out` if it takes the timeout arm, the task of the
`SUCCESS` response if it takes the tick arm. -/
theorem select_both_ready (w : World) (s : Schedule) (report : SonarReport)
    (fuel i now : Nat) (job : TaskResponse)
    (hnow : timeoutAfter ≤ now)
    (hjob : getSonarJobStatus w i report = .ret job)
    (hs : job.Task.Status = "SUCCESS") :
    (s.choice i = .timeout →
      waitForSonarJobAt w s report (fuel + 1) i now true
        = ⟨.ret (.error "timed out"), i, now, [.timeout]⟩)
    ∧ (s.choice i = .tick →
      waitForSonarJobAt w s report (fuel + 1) i now true
        = ⟨.ret (.ok job), i + 1, now + s.requestTime i, [.tick]⟩) := by
  have hsel : selectArm s i now true = (s.choice i, now) := by
    simp [selectArm, hnow]
  constructor
  · intro hc
    rw [hc] at hsel
    exact waitForSonarJobAt_timeout w s report fuel i now true now hsel
  · intro hc
    rw [hc] at hsel
    simp [waitForSonarJobAt, hsel, hjob, hs]

/-- C7 at a concrete input: the state after thirty-four requests of nine
seconds, with the thirty-fifth answered `SUCCESS`, under either choice. -/
theorem select_both_ready_witness :
    ((slowSchedule .tick).choice 34 = .timeout →
      waitForSonarJobAt (sampleWorld 35 "OK" 0) (slowSchedule .tick) sampleReport
          (0 + 1) 34 306500 true
        = ⟨.ret (.error "timed out"), 34, 306500, [.timeout]⟩)
    ∧ ((slowSchedule .tick).choice 34 = .tick →
      waitForSonarJobAt (sampleWorld 35 "OK" 0) (slowSchedule .tick) sampleReport
          (0 + 1) 34 306500 true
        = ⟨.ret (.ok ⟨⟨"", "", "", "", "", "A1", "SUCCESS"⟩⟩), 34 + 1,
            306500 + (slowSchedule .tick).requestTime 34, [.tick]⟩) :=
  select_both_ready (sampleWorld 35 "OK" 0) (slowSchedule .tick) sampleReport 0 34 306500
    ⟨⟨"", "", "", "", "", "A1", "SUCCESS"⟩⟩ (by decide) (by decide) (by decide)

set_option maxRecDepth 100000 in
/-- C7 fails as stated: every status request takes nine seconds and the
thirty-fifth is the first answered `SUCCESS`.  The thirty-fourth request runs
from 297500 ms to 306500 ms, over the deadline and over several firings of the
ticker, so the thirty-fifth `select` finds the timeout channel and the ticker
channel both ready.  If it takes the tick arm the run returns the `SUCCESS`
task, not `timed out`; only if it takes the timeout arm does the run time
out. -/
theorem tie_can_complete :
    waitForSonarJobTimed (sampleWorld 35 "OK" 0) (slowSchedule .tick) sampleReport 34
      = ⟨.blocked, 34, 306500, List.replicate 34 .tick⟩
    ∧ waitForSonarJobTimed (sampleWorld 35 "OK" 0) (slowSchedule .tick) sampleReport 35
      = ⟨.ret (.ok ⟨⟨"", "", "", "", "", "A1", "SUCCESS"⟩⟩), 35, 315500,
          List.replicate 35 .tick⟩
    ∧ waitForSonarJobTimed (sampleWorld 35 "OK" 0) (slowSchedule .timeout) sampleReport 35
      = ⟨.ret (.error "timed out"), 34, 306500, List.replicate 34 .tick ++ [.timeout]⟩ := by
  decide

/-- The timed loop is the loop of `waitForSonarJobFrom` on the arms it takes:
the same result after the same number of requests. -/
theorem waitForSonarJobAt_refines (w : World) (s : Schedule) (report : SonarReport)
    (fuel i now : Nat) (held : Bool) :
    waitForSonarJobFrom w report (waitForSonarJobAt w s report fuel i now held).arms i
      = ⟨(waitForSonarJobAt w s report fuel i now held).result,
          (waitForSonarJobAt w s report fuel i now held).requests⟩ := by
  induction fuel generalizing i now held with
  | zero => simp [waitForSonarJobAt, waitForSonarJobFrom]
  | succ fuel ih =>
    cases hsel : selectArm s i now held with
    | mk a t =>
      cases a with
      | timeout =>
        rw [waitForSonarJobAt_timeout w s report fuel i now held t hsel]
        simp [waitForSonarJobFrom]
      | tick =>
        cases hj : getSonarJobStatus w i report with
        | ret job =>
          by_cases hs : job.Task.Status = "SUCCESS"
          · simp [waitForSonarJobAt, hsel, hj, hs, waitForSonarJobFrom]
          · rw [waitForSonarJobAt_tick_pending w s report fuel i now held t job hsel hj hs]
            simp only [TimedPoll.after]
            rw [waitForSonarJobFrom_tick_pending w report _ i job hj hs]
            exact ih (i + 1) _ _
        | fatal msg => simp [waitForSonarJobAt, hsel, hj, waitForSonarJobFrom]
        | panicked => simp [waitForSonarJobAt, hsel, hj, waitForSonarJobFrom]
        | blocked => simp [waitForSonarJobAt, hsel, hj, waitForSonarJobFrom]

/-- The end-to-end scenarios: the expected status `OK` passes with the verdict
`OK` and fails with the verdicts `ERROR` and `ok`. -/
theorem Exec_scenarios :
    (Exec (sampleWorld 1 "OK" 3) (samplePlugin "OK")).1 = .ret none
    ∧ (Exec (sampleWorld 1 "ERROR" 3) (samplePlugin "OK")).1
        = .fatal "QualityGate status failed"
    ∧ (Exec (sampleWorld 1 "ok" 3) (samplePlugin "OK")).1
        = .fatal "QualityGate status failed" := by
  decide

end SonarPlugin
